import Mathlib

/-!
Verification of the recursive ACL-change engine of the Azure Data Lake path
client (`azure/storage/filedatalake/aio/_path_client_async.py`).

The server-side batch primitive (`self._client.path.set_access_control_recursive`)
is modelled by an oracle: a list of responses, one per call the engine makes,
where each entry is either a successful batch response or a transport error.
The engine loop is a structural recursion over that list.  Machine integers of
the source are Python arbitrary-precision integers, so counters are `Int`.
-/

/-- Counters reported for a batch or as a running total
(`AccessControlChangeCounters` in `_models.py`). -/
structure AccessControlChangeCounters where
  directories_successful : Int
  files_successful : Int
  failure_count : Int
deriving DecidableEq

/-- A per-entry failure surfaced to the caller (`AccessControlChangeFailure`). -/
structure AccessControlChangeFailure where
  name : String
  is_directory : Bool
  error_message : String
deriving DecidableEq

/-- The progress report handed to the progress callback (`AccessControlChanges`). -/
structure AccessControlChanges where
  batch_counters : AccessControlChangeCounters
  aggregate_counters : AccessControlChangeCounters
  batch_failures : List AccessControlChangeFailure
  continuation : Option String
deriving DecidableEq

/-- The final return value of the engine (`AccessControlChangeResult`). -/
structure AccessControlChangeResult where
  counters : AccessControlChangeCounters
  continuation : Option String
deriving DecidableEq

/-- A failed entry as reported by the service inside a batch response
(`failure` in `resp.failed_entries`, with fields `name`, `type`,
`error_message`). -/
structure AclFailedEntry where
  name : String
  type : String
  error_message : String
deriving DecidableEq

/-- One `(headers, resp)` pair returned by the batch primitive
`self._client.path.set_access_control_recursive(**options)`: the response body
counters and failed entries, plus `headers['continuation']`. -/
structure BatchResponse where
  directories_successful : Int
  files_successful : Int
  failure_count : Int
  failed_entries : List AclFailedEntry
  continuation : Option String
deriving DecidableEq

/-- The request options dictionary built by `_set_access_control_recursive_options`:
the mutation mode literal, the ACL text and the optional continuation token. -/
structure AclChangeOptions where
  mode : String
  acl : String
  continuation : Option String
deriving DecidableEq

/-- The local mutable loop variables of `_set_access_control_internal`. -/
structure EngineState where
  total_directories_successful : Int
  total_files_success : Int
  total_failure_count : Int
  batch_count : Nat
  last_continuation_token : Option String
  current_continuation_token : Option String
deriving DecidableEq

/-- Python truthiness of an optional string: `bool(None)` and `bool('')` are
`False`, any non-empty string is `True` (used at
`continue_operation = bool(current_continuation_token) and ...`). -/
def truthyToken : Option String → Bool
  | none => false
  | some s => !(s == "")

/-- `max_batch_satisfied = True if max_batch is not None and batch_count == max_batch
else False` (source line 432). -/
def maxBatchSatisfied (max_batch : Option Int) (batch_count : Nat) : Bool :=
  match max_batch with
  | some m => ((batch_count : Int) == m)
  | none => false

/-- One iteration's state update (source lines 404-411): add the batch's counts
into the running totals, increment `batch_count`, store the batch's continuation
token into `current_continuation_token`, and, when that token `is not None`,
also into `last_continuation_token`. -/
def engineStep (st : EngineState) (b : BatchResponse) : EngineState :=
  let st1 : EngineState :=
    { st with
      total_directories_successful :=
        st.total_directories_successful + b.directories_successful
      total_files_success := st.total_files_success + b.files_successful
      total_failure_count := st.total_failure_count + b.failure_count
      batch_count := st.batch_count + 1
      current_continuation_token := b.continuation }
  match b.continuation with
  | some _ => { st1 with last_continuation_token := b.continuation }
  | none => st1

/-- Conversion of a service failed entry into the caller-visible failure
(source lines 425-428): `is_directory = (failure.type == 'DIRECTORY')`,
name and error message copied through. -/
def mkAccessControlChangeFailure (f : AclFailedEntry) : AccessControlChangeFailure :=
  { name := f.name
    is_directory := f.type == "DIRECTORY"
    error_message := f.error_message }

/-- The `AccessControlChanges` value passed to the progress callback (source
lines 414-429); `st` is the engine state after the current batch was tallied. -/
def mkProgress (b : BatchResponse) (st : EngineState) : AccessControlChanges :=
  { batch_counters :=
      { directories_successful := b.directories_successful
        files_successful := b.files_successful
        failure_count := b.failure_count }
    aggregate_counters :=
      { directories_successful := st.total_directories_successful
        files_successful := st.total_files_success
        failure_count := st.total_failure_count }
    batch_failures := b.failed_entries.map mkAccessControlChangeFailure
    continuation := st.last_continuation_token }

/-- The terminal `AccessControlChangeResult` (source lines 439-443):
grand totals, and `last_continuation_token` when any failure accumulated,
otherwise the raw `current_continuation_token` from the very last call. -/
def mkResult (st : EngineState) : AccessControlChangeResult :=
  { counters :=
      { directories_successful := st.total_directories_successful
        files_successful := st.total_files_success
        failure_count := st.total_failure_count }
    continuation :=
      if st.total_failure_count > 0 then st.last_continuation_token
      else st.current_continuation_token }

/-- Initial loop variables (source lines 393-399). -/
def initEngineState : EngineState :=
  { total_directories_successful := 0
    total_files_success := 0
    total_failure_count := 0
    batch_count := 0
    last_continuation_token := none
    current_continuation_token := none }

/-- Outcome of one engine invocation: normal termination with the consumed
batch responses, progress reports and final result; propagation of a transport
error (recording how many calls to the primitive were made, the failing one
included); or exhaustion of the oracle while the loop still wanted to
continue. -/
inductive RunResult (ε : Type) where
  | ok (consumed : List BatchResponse) (reports : List AccessControlChanges)
      (result : AccessControlChangeResult)
  | err (calls : Nat) (e : ε)
  | exhausted (consumed : List BatchResponse)
deriving DecidableEq

/-- Number of calls made to the batch primitive in an engine outcome. -/
def RunResult.callCount {ε : Type} : RunResult ε → Nat
  | .ok consumed _ _ => consumed.length
  | .err calls _ => calls
  | .exhausted consumed => consumed.length

/-- The `while continue_operation` loop of `_set_access_control_internal`
(source lines 400-434), as recursion over the oracle of primitive responses.
`pse` models `process_storage_error`, the external translation applied to a
`StorageErrorException` before it propagates.  Each iteration tallies the
batch, emits a progress report when a callback is supplied, and continues
exactly when the batch's token is truthy and the max-batch cap is not hit. -/
def setAccessControlLoop {ε ε' : Type} (pse : ε → ε') (progress_callback : Bool)
    (max_batch : Option Int) (st : EngineState) :
    List (Except ε BatchResponse) → RunResult ε'
  | [] => .exhausted []
  | .error e :: _ => .err 1 (pse e)
  | .ok b :: rest =>
    if truthyToken b.continuation
        && !(maxBatchSatisfied max_batch (engineStep st b).batch_count) then
      match setAccessControlLoop pse progress_callback max_batch (engineStep st b) rest with
      | .ok consumed reports result =>
          .ok (b :: consumed)
            ((if progress_callback then [mkProgress b (engineStep st b)] else []) ++ reports)
            result
      | .err calls e => .err (calls + 1) e
      | .exhausted consumed => .exhausted (b :: consumed)
    else
      .ok [b] (if progress_callback then [mkProgress b (engineStep st b)] else [])
        (mkResult (engineStep st b))

/-- `_set_access_control_internal(options, progress_callback, max_batch)`:
runs the loop from the initial state.  The request options are pass-through
data for the server; the server's behaviour is the oracle `server`. -/
def _set_access_control_internal {ε ε' : Type} (pse : ε → ε') (options : AclChangeOptions)
    (progress_callback : Bool) (max_batch : Option Int)
    (server : List (Except ε BatchResponse)) : RunResult ε' :=
  setAccessControlLoop pse progress_callback max_batch initEngineState server

/-- Modelled from the spec: `_set_access_control_recursive_options` is defined
on the base path client, outside the given sources; per the spec it builds the
request options carrying the mutation mode literal, the ACL text and the
optional continuation token unchanged. -/
def _set_access_control_recursive_options (mode : String) (acl : String)
    (continuation : Option String) : AclChangeOptions :=
  { mode := mode, acl := acl, continuation := continuation }

/-- `set_access_control_recursive` (source lines 270-308): validate the ACL
text, build options with mode literal `'set'`, and run the engine.  The value
returned pairs the options forwarded to the server with the engine outcome. -/
def set_access_control_recursive {ε ε' : Type} (pse : ε → ε') (acl : String)
    (progress_callback : Bool) (max_batch : Option Int) (continuation : Option String)
    (server : List (Except ε BatchResponse)) :
    Except String (AclChangeOptions × RunResult ε') :=
  if acl == "" then
    .error "The Access Control List must be set for this operation"
  else
    .ok (_set_access_control_recursive_options "set" acl continuation,
      _set_access_control_internal pse
        (_set_access_control_recursive_options "set" acl continuation)
        progress_callback max_batch server)

/-- `update_access_control_recursive` (source lines 310-349), mode `'modify'`. -/
def update_access_control_recursive {ε ε' : Type} (pse : ε → ε') (acl : String)
    (progress_callback : Bool) (max_batch : Option Int) (continuation : Option String)
    (server : List (Except ε BatchResponse)) :
    Except String (AclChangeOptions × RunResult ε') :=
  if acl == "" then
    .error "The Access Control List must be set for this operation"
  else
    .ok (_set_access_control_recursive_options "modify" acl continuation,
      _set_access_control_internal pse
        (_set_access_control_recursive_options "modify" acl continuation)
        progress_callback max_batch server)

/-- `remove_access_control_recursive` (source lines 351-389), mode `'remove'`. -/
def remove_access_control_recursive {ε ε' : Type} (pse : ε → ε') (acl : String)
    (progress_callback : Bool) (max_batch : Option Int) (continuation : Option String)
    (server : List (Except ε BatchResponse)) :
    Except String (AclChangeOptions × RunResult ε') :=
  if acl == "" then
    .error "The Access Control List must be set for this operation"
  else
    .ok (_set_access_control_recursive_options "remove" acl continuation,
      _set_access_control_internal pse
        (_set_access_control_recursive_options "remove" acl continuation)
        progress_callback max_batch server)

/-- The single mode-parametrised entry operation the spec describes (one shared
computation, the mode literal forwarded into the request options); written
from the spec's words to compare the three concrete entry operations against. -/
def access_control_recursive_generic {ε ε' : Type} (pse : ε → ε') (mode : String)
    (acl : String) (progress_callback : Bool) (max_batch : Option Int)
    (continuation : Option String) (server : List (Except ε BatchResponse)) :
    Except String (AclChangeOptions × RunResult ε') :=
  if acl == "" then
    .error "The Access Control List must be set for this operation"
  else
    .ok (_set_access_control_recursive_options mode acl continuation,
      _set_access_control_internal pse
        (_set_access_control_recursive_options mode acl continuation)
        progress_callback max_batch server)

/-- The counters of one batch response. -/
def countersOf (b : BatchResponse) : AccessControlChangeCounters :=
  { directories_successful := b.directories_successful
    files_successful := b.files_successful
    failure_count := b.failure_count }

/-- Element-wise sum of two counter records. -/
def addCounters (a c : AccessControlChangeCounters) : AccessControlChangeCounters :=
  { directories_successful := a.directories_successful + c.directories_successful
    files_successful := a.files_successful + c.files_successful
    failure_count := a.failure_count + c.failure_count }

/-- The all-zero counter record. -/
def zeroCounters : AccessControlChangeCounters :=
  { directories_successful := 0, files_successful := 0, failure_count := 0 }

/-- Element-wise sum of the counters of a list of batch responses. -/
def sumCounters (bs : List BatchResponse) : AccessControlChangeCounters :=
  bs.foldl (fun a b => addCounters a (countersOf b)) zeroCounters

/-- Element-wise order on counter records. -/
def countersLe (a c : AccessControlChangeCounters) : Prop :=
  a.directories_successful ≤ c.directories_successful
    ∧ a.files_successful ≤ c.files_successful
    ∧ a.failure_count ≤ c.failure_count

/-- The most recent non-null continuation token in `bs`, starting from `acc`. -/
def lastNonNoneToken (acc : Option String) : List BatchResponse → Option String
  | [] => acc
  | b :: rest =>
    lastNonNoneToken (match b.continuation with | some t => some t | none => acc) rest

/-- The raw continuation token of the last batch in `bs` (`acc` when empty). -/
def lastRawToken (acc : Option String) : List BatchResponse → Option String
  | [] => acc
  | b :: rest => lastRawToken b.continuation rest

/-- State after tallying a whole list of batches. -/
def engineRun (st : EngineState) (bs : List BatchResponse) : EngineState :=
  bs.foldl engineStep st

/-- The progress reports emitted while tallying `bs` from state `st`. -/
def reportsOf (st : EngineState) : List BatchResponse → List AccessControlChanges
  | [] => []
  | b :: rest => mkProgress b (engineStep st b) :: reportsOf (engineStep st b) rest

/-- The loop-continuation test after a batch: its token is truthy and the
max-batch cap is not reached at the post-batch count `n`. -/
def continuesAfter (max_batch : Option Int) (n : Nat) (b : BatchResponse) : Bool :=
  truthyToken b.continuation && !(maxBatchSatisfied max_batch n)

/-- Starting at batch count `n`, the loop consumes exactly this whole list:
every batch but the last passes the continuation test and the last fails it. -/
def stopsExactly (max_batch : Option Int) (n : Nat) : List BatchResponse → Bool
  | [] => false
  | [b] => !(continuesAfter max_batch (n + 1) b)
  | b :: rest => continuesAfter max_batch (n + 1) b && stopsExactly max_batch (n + 1) rest

/-- Starting at batch count `n`, every batch of the list passes the
loop-continuation test. -/
def allContinue (max_batch : Option Int) (n : Nat) : List BatchResponse → Bool
  | [] => true
  | b :: rest => continuesAfter max_batch (n + 1) b && allContinue max_batch (n + 1) rest

/-- Sample request options for concrete runs. -/
def exOptions : AclChangeOptions :=
  { mode := "set", acl := "user::rwx,group::r-x", continuation := none }

/-- A clean batch whose continuation token is truthy. -/
def batchTok : BatchResponse :=
  { directories_successful := 1, files_successful := 2, failure_count := 0
    failed_entries := [], continuation := some "T" }

/-- A clean terminal batch (null continuation token). -/
def batchEnd : BatchResponse :=
  { directories_successful := 3, files_successful := 7, failure_count := 0
    failed_entries := [], continuation := none }

/-- A batch with one per-entry failure and a truthy token. -/
def batchFail : BatchResponse :=
  { directories_successful := 2, files_successful := 5, failure_count := 1
    failed_entries := [{ name := "dir/a.txt", type := "FILE", error_message := "denied" }]
    continuation := some "TOK1" }

/-- A clean terminal batch following `batchFail`. -/
def batchClean : BatchResponse :=
  { directories_successful := 1, files_successful := 0, failure_count := 0
    failed_entries := [], continuation := none }

/-- A terminal batch with two failed entries, one of type `DIRECTORY` and one
with the lower-case type string `directory`. -/
def batchDirFail : BatchResponse :=
  { directories_successful := 0, files_successful := 0, failure_count := 2
    failed_entries :=
      [{ name := "d1", type := "DIRECTORY", error_message := "m1" },
       { name := "f1", type := "directory", error_message := "m2" }]
    continuation := none }

/-- A batch whose continuation token is the empty string: non-null but falsy. -/
def batchEmptyTok : BatchResponse :=
  { directories_successful := 1, files_successful := 1, failure_count := 0
    failed_entries := [], continuation := some "" }

/-- An engine state holding a previously seen resumable token. -/
def stWithTok : EngineState :=
  { total_directories_successful := 2, total_files_success := 5
    total_failure_count := 1, batch_count := 1
    last_continuation_token := some "TOK1"
    current_continuation_token := some "TOK1" }

theorem addCounters_zero_left (c : AccessControlChangeCounters) :
    addCounters zeroCounters c = c := by
  cases c
  simp [addCounters, zeroCounters]

theorem addCounters_zero_right (c : AccessControlChangeCounters) :
    addCounters c zeroCounters = c := by
  cases c
  simp [addCounters, zeroCounters]

theorem addCounters_assoc (a b c : AccessControlChangeCounters) :
    addCounters (addCounters a b) c = addCounters a (addCounters b c) := by
  cases a; cases b; cases c
  simp [addCounters, Int.add_assoc]

theorem sumCounters_foldl (bs : List BatchResponse) :
    ∀ c : AccessControlChangeCounters,
      bs.foldl (fun a b => addCounters a (countersOf b)) c = addCounters c (sumCounters bs) := by
  induction bs with
  | nil => intro c; simp [sumCounters, addCounters_zero_right]
  | cons b bs ih =>
    intro c
    have hsum : sumCounters (b :: bs) = addCounters (countersOf b) (sumCounters bs) := by
      show List.foldl _ (addCounters zeroCounters (countersOf b)) bs = _
      rw [ih, addCounters_zero_left]
    show List.foldl _ (addCounters c (countersOf b)) bs = _
    rw [ih, hsum, addCounters_assoc]

theorem sumCounters_cons (b : BatchResponse) (bs : List BatchResponse) :
    sumCounters (b :: bs) = addCounters (countersOf b) (sumCounters bs) := by
  show List.foldl _ (addCounters zeroCounters (countersOf b)) bs = _
  rw [sumCounters_foldl, addCounters_zero_left]

theorem sumCounters_append (l1 l2 : List BatchResponse) :
    sumCounters (l1 ++ l2) = addCounters (sumCounters l1) (sumCounters l2) := by
  show List.foldl _ _ (l1 ++ l2) = _
  rw [List.foldl_append]
  show List.foldl _ (sumCounters l1) l2 = _
  rw [sumCounters_foldl]

theorem engineStep_batch_count (st : EngineState) (b : BatchResponse) :
    (engineStep st b).batch_count = st.batch_count + 1 := by
  cases hb : b.continuation <;> simp [engineStep, hb]

theorem engineStep_dirs (st : EngineState) (b : BatchResponse) :
    (engineStep st b).total_directories_successful
      = st.total_directories_successful + b.directories_successful := by
  cases hb : b.continuation <;> simp [engineStep, hb]

theorem engineStep_files (st : EngineState) (b : BatchResponse) :
    (engineStep st b).total_files_success
      = st.total_files_success + b.files_successful := by
  cases hb : b.continuation <;> simp [engineStep, hb]

theorem engineStep_failures (st : EngineState) (b : BatchResponse) :
    (engineStep st b).total_failure_count
      = st.total_failure_count + b.failure_count := by
  cases hb : b.continuation <;> simp [engineStep, hb]

theorem engineStep_current (st : EngineState) (b : BatchResponse) :
    (engineStep st b).current_continuation_token = b.continuation := by
  cases hb : b.continuation <;> simp [engineStep, hb]

theorem engineStep_last (st : EngineState) (b : BatchResponse) :
    (engineStep st b).last_continuation_token
      = (match b.continuation with
         | some t => some t
         | none => st.last_continuation_token) := by
  cases hb : b.continuation <;> simp [engineStep, hb]

theorem engineRun_totals (bs : List BatchResponse) :
    ∀ st : EngineState,
      (engineRun st bs).total_directories_successful
          = st.total_directories_successful + (sumCounters bs).directories_successful
        ∧ (engineRun st bs).total_files_success
          = st.total_files_success + (sumCounters bs).files_successful
        ∧ (engineRun st bs).total_failure_count
          = st.total_failure_count + (sumCounters bs).failure_count := by
  induction bs with
  | nil =>
    intro st
    simp [engineRun, sumCounters, zeroCounters]
  | cons b bs ih =>
    intro st
    have hrun : engineRun st (b :: bs) = engineRun (engineStep st b) bs := rfl
    obtain ⟨ih1, ih2, ih3⟩ := ih (engineStep st b)
    rw [hrun, sumCounters_cons]
    refine ⟨?_, ?_, ?_⟩
    · rw [ih1, engineStep_dirs]
      simp [addCounters, countersOf, Int.add_assoc]
    · rw [ih2, engineStep_files]
      simp [addCounters, countersOf, Int.add_assoc]
    · rw [ih3, engineStep_failures]
      simp [addCounters, countersOf, Int.add_assoc]

theorem engineRun_batch_count (bs : List BatchResponse) :
    ∀ st : EngineState, (engineRun st bs).batch_count = st.batch_count + bs.length := by
  induction bs with
  | nil => intro st; simp [engineRun]
  | cons b bs ih =>
    intro st
    have hrun : engineRun st (b :: bs) = engineRun (engineStep st b) bs := rfl
    rw [hrun, ih, engineStep_batch_count]
    simp [Nat.add_assoc, Nat.add_comm 1 bs.length]

theorem engineRun_last (bs : List BatchResponse) :
    ∀ st : EngineState,
      (engineRun st bs).last_continuation_token
        = lastNonNoneToken st.last_continuation_token bs := by
  induction bs with
  | nil => intro st; rfl
  | cons b bs ih =>
    intro st
    have hrun : engineRun st (b :: bs) = engineRun (engineStep st b) bs := rfl
    rw [hrun, ih, engineStep_last]
    rfl

theorem engineRun_current (bs : List BatchResponse) :
    ∀ st : EngineState,
      (engineRun st bs).current_continuation_token
        = lastRawToken st.current_continuation_token bs := by
  induction bs with
  | nil => intro st; rfl
  | cons b bs ih =>
    intro st
    have hrun : engineRun st (b :: bs) = engineRun (engineStep st b) bs := rfl
    rw [hrun, ih, engineStep_current]
    rfl

theorem reportsOf_length (bs : List BatchResponse) :
    ∀ st : EngineState, (reportsOf st bs).length = bs.length := by
  induction bs with
  | nil => intro st; rfl
  | cons b bs ih =>
    intro st
    show (mkProgress b (engineStep st b) :: reportsOf (engineStep st b) bs).length = _
    simp [ih]

theorem reportsOf_get (bs : List BatchResponse) :
    ∀ (st : EngineState) (n : Nat) (b : BatchResponse), bs[n]? = some b →
      (reportsOf st bs)[n]? = some (mkProgress b (engineRun st (bs.take (n + 1)))) := by
  induction bs with
  | nil => intro st n b h; simp at h
  | cons b0 bs ih =>
    intro st n b h
    cases n with
    | zero =>
      simp at h
      subst h
      simp [reportsOf, List.take, engineRun]
    | succ n =>
      simp at h
      show (mkProgress b0 (engineStep st b0) :: reportsOf (engineStep st b0) bs)[n + 1]? = _
      have := ih (engineStep st b0) n b h
      simp [this]
      rfl

theorem setAccessControlLoop_ok_inv {ε ε' : Type} (pse : ε → ε') (cb : Bool)
    (mb : Option Int) :
    ∀ (oracle : List (Except ε BatchResponse)) (st : EngineState)
      (consumed : List BatchResponse) (reports : List AccessControlChanges)
      (result : AccessControlChangeResult),
      setAccessControlLoop pse cb mb st oracle = .ok consumed reports result →
      result = mkResult (engineRun st consumed)
        ∧ reports = (if cb then reportsOf st consumed else [])
        ∧ consumed ≠ [] := by
  intro oracle
  induction oracle with
  | nil =>
    intro st consumed reports result h
    simp [setAccessControlLoop] at h
  | cons x rest ih =>
    intro st consumed reports result h
    cases x with
    | error e => simp [setAccessControlLoop] at h
    | ok b =>
      simp only [setAccessControlLoop] at h
      split at h
      · split at h
        next consumed' reports' result' heq =>
          obtain ⟨hcons, hrep, hres⟩ := RunResult.ok.inj h
          obtain ⟨ihres, ihrep, _⟩ := ih (engineStep st b) consumed' reports' result' heq
          subst hcons hrep hres
          refine ⟨?_, ?_, by simp⟩
          · rw [ihres]; rfl
          · rw [ihrep]
            cases cb <;> simp [reportsOf]
        next calls e heq => exact absurd h (by simp)
        next consumed' heq => exact absurd h (by simp)
      · obtain ⟨hcons, hrep, hres⟩ := RunResult.ok.inj h
        subst hcons hrep hres
        refine ⟨?_, ?_, by simp⟩
        · rfl
        · cases cb <;> simp [reportsOf]

theorem setAccessControlLoop_cons_ok {ε ε' : Type} (pse : ε → ε') (cb : Bool)
    (mb : Option Int) (st : EngineState) (b : BatchResponse)
    (rest : List (Except ε BatchResponse)) :
    setAccessControlLoop pse cb mb st (Except.ok b :: rest)
      = if truthyToken b.continuation
            && !(maxBatchSatisfied mb (engineStep st b).batch_count) then
          match setAccessControlLoop pse cb mb (engineStep st b) rest with
          | .ok consumed reports result =>
              .ok (b :: consumed)
                ((if cb then [mkProgress b (engineStep st b)] else []) ++ reports)
                result
          | .err calls e => .err (calls + 1) e
          | .exhausted consumed => .exhausted (b :: consumed)
        else
          .ok [b] (if cb then [mkProgress b (engineStep st b)] else [])
            (mkResult (engineStep st b)) := rfl

theorem setAccessControlLoop_forward {ε ε' : Type} (pse : ε → ε') (cb : Bool)
    (mb : Option Int) :
    ∀ (p : List BatchResponse) (st : EngineState) (rest : List (Except ε BatchResponse)),
      stopsExactly mb st.batch_count p = true →
      setAccessControlLoop pse cb mb st (p.map Except.ok ++ rest)
        = .ok p (if cb then reportsOf st p else []) (mkResult (engineRun st p)) := by
  intro p
  induction p with
  | nil => intro st rest h; simp [stopsExactly] at h
  | cons b tail ih =>
    intro st rest h
    cases tail with
    | nil =>
      simp only [stopsExactly, continuesAfter] at h
      have hcond : (truthyToken b.continuation
          && !(maxBatchSatisfied mb (engineStep st b).batch_count)) = false := by
        rw [engineStep_batch_count]
        cases htv : (truthyToken b.continuation
            && !(maxBatchSatisfied mb (st.batch_count + 1))) with
        | false => rfl
        | true => rw [htv] at h; simp at h
      show setAccessControlLoop pse cb mb st (Except.ok b :: rest) = _
      rw [setAccessControlLoop_cons_ok]
      simp only [hcond]
      cases cb <;> simp [reportsOf, engineRun]
    | cons b' tail' =>
      simp only [stopsExactly, continuesAfter] at h
      rw [Bool.and_eq_true] at h
      obtain ⟨h1, h2⟩ := h
      have hcond : (truthyToken b.continuation
          && !(maxBatchSatisfied mb (engineStep st b).batch_count)) = true := by
        rw [engineStep_batch_count]; exact h1
      have ihh := ih (engineStep st b) rest (by rw [engineStep_batch_count]; exact h2)
      show setAccessControlLoop pse cb mb st
          (Except.ok b :: ((b' :: tail').map Except.ok ++ rest)) = _
      rw [setAccessControlLoop_cons_ok]
      simp only [hcond, if_true]
      rw [ihh]
      have hrun : engineRun st (b :: b' :: tail') = engineRun (engineStep st b) (b' :: tail') := rfl
      rw [hrun]
      cases cb <;> simp [reportsOf]

theorem setAccessControlLoop_error {ε ε' : Type} (pse : ε → ε') (cb : Bool)
    (mb : Option Int) :
    ∀ (p : List BatchResponse) (st : EngineState) (e : ε)
      (rest : List (Except ε BatchResponse)),
      allContinue mb st.batch_count p = true →
      setAccessControlLoop pse cb mb st (p.map Except.ok ++ (.error e :: rest))
        = .err (p.length + 1) (pse e) := by
  intro p
  induction p with
  | nil =>
    intro st e rest _
    simp [setAccessControlLoop]
  | cons b tail ih =>
    intro st e rest h
    simp only [allContinue, continuesAfter, Bool.and_eq_true] at h
    obtain ⟨h1, h2⟩ := h
    have hcond : (truthyToken b.continuation
        && !(maxBatchSatisfied mb (engineStep st b).batch_count)) = true := by
      rw [engineStep_batch_count]
      simp only [Bool.and_eq_true] at h1 ⊢
      exact h1
    have ihh := ih (engineStep st b) e rest (by rw [engineStep_batch_count]; exact h2)
    show setAccessControlLoop pse cb mb st
        (Except.ok b :: (tail.map Except.ok ++ (.error e :: rest))) = _
    simp only [setAccessControlLoop, hcond, if_true]
    rw [ihh]
    simp [List.length_cons]

theorem stopsExactly_of_unbounded :
    ∀ (bs : List BatchResponse) (n : Nat),
      bs ≠ [] →
      (∀ (i : Nat) (b : BatchResponse), bs[i]? = some b → i + 1 < bs.length →
        truthyToken b.continuation = true) →
      (∀ b, bs.getLast? = some b → truthyToken b.continuation = false) →
      stopsExactly none n bs = true := by
  intro bs
  induction bs with
  | nil => intro n h _ _; exact absurd rfl h
  | cons b tail ih =>
    intro n _ hmid hlast
    cases tail with
    | nil =>
      have hb := hlast b rfl
      simp [stopsExactly, continuesAfter, maxBatchSatisfied, hb]
    | cons b' tail' =>
      have h1 : truthyToken b.continuation = true := by
        refine hmid 0 b (by simp) ?_
        simp [List.length_cons]
      have hmid' : ∀ (i : Nat) (x : BatchResponse), (b' :: tail')[i]? = some x →
          i + 1 < (b' :: tail').length → truthyToken x.continuation = true := by
        intro i x hx hi
        refine hmid (i + 1) x (by simpa using hx) ?_
        simp only [List.length_cons] at hi ⊢
        omega
      have hlast' : ∀ x, (b' :: tail').getLast? = some x →
          truthyToken x.continuation = false := by
        intro x hx
        exact hlast x (by rw [List.getLast?_cons_cons]; exact hx)
      have ihh := ih (n + 1) (by simp) hmid' hlast'
      simp [stopsExactly, continuesAfter, maxBatchSatisfied, h1, ihh]

theorem stopsExactly_of_maxBatch :
    ∀ (p : List BatchResponse) (n k : Nat),
      n + p.length = k →
      p ≠ [] →
      (∀ b, b ∈ p → truthyToken b.continuation = true) →
      stopsExactly (some (k : Int)) n p = true := by
  intro p
  induction p with
  | nil => intro n k _ h _; exact absurd rfl h
  | cons b tail ih =>
    intro n k hk _ htr
    have h1 : truthyToken b.continuation = true := htr b (by simp)
    cases tail with
    | nil =>
      have hn : n + 1 = k := by simpa using hk
      have hsat : maxBatchSatisfied (some (k : Int)) (n + 1) = true := by
        simp [maxBatchSatisfied, hn]
      simp [stopsExactly, continuesAfter, hsat]
    | cons b' tail' =>
      have hlt : n + 1 < k := by
        simp only [List.length_cons] at hk
        omega
      have hsat : maxBatchSatisfied (some (k : Int)) (n + 1) = false := by
        simp only [maxBatchSatisfied, beq_eq_false_iff_ne, ne_eq]
        intro hc
        omega
      have ihh := ih (n + 1) k (by simp only [List.length_cons] at hk ⊢; omega)
        (by simp) (fun x hx => htr x (by simp [hx]))
      simp [stopsExactly, continuesAfter, h1, hsat, ihh]

theorem sumCounters_nonneg :
    ∀ (bs : List BatchResponse),
      (∀ b, b ∈ bs → 0 ≤ b.directories_successful ∧ 0 ≤ b.files_successful
        ∧ 0 ≤ b.failure_count) →
      countersLe zeroCounters (sumCounters bs) := by
  intro bs
  induction bs with
  | nil => intro _; simp [countersLe, sumCounters, zeroCounters]
  | cons b tail ih =>
    intro h
    obtain ⟨h1, h2, h3⟩ := h b (by simp)
    obtain ⟨t1, t2, t3⟩ := ih (fun x hx => h x (by simp [hx]))
    rw [sumCounters_cons]
    simp only [countersLe, addCounters, countersOf, zeroCounters] at *
    refine ⟨by omega, by omega, by omega⟩

theorem sumCounters_take_le (bs : List BatchResponse)
    (hnn : ∀ b, b ∈ bs → 0 ≤ b.directories_successful ∧ 0 ≤ b.files_successful
      ∧ 0 ≤ b.failure_count)
    (i j : Nat) (hij : i ≤ j) :
    countersLe (sumCounters (bs.take i)) (sumCounters (bs.take j)) := by
  have h0 : List.take i (List.take j bs) = List.take i bs := by
    rw [List.take_take, Nat.min_eq_left hij]
  have hsplit : bs.take j = bs.take i ++ (bs.take j).drop i := by
    conv_lhs => rw [← List.take_append_drop i (List.take j bs)]
    rw [h0]
  have hnn' : ∀ b, b ∈ (bs.take j).drop i → 0 ≤ b.directories_successful
      ∧ 0 ≤ b.files_successful ∧ 0 ≤ b.failure_count := by
    intro b hb
    exact hnn b (List.take_subset j bs (List.drop_subset i (bs.take j) hb))
  have hpos := sumCounters_nonneg ((bs.take j).drop i) hnn'
  rw [hsplit, sumCounters_append]
  simp only [countersLe, addCounters, zeroCounters] at *
  obtain ⟨p1, p2, p3⟩ := hpos
  refine ⟨by omega, by omega, by omega⟩

theorem setAccessControlLoop_no_err {ε ε' : Type} (pse : ε → ε') (cb : Bool)
    (mb : Option Int) :
    ∀ (bs : List BatchResponse) (st : EngineState) (c : Nat) (e : ε'),
      setAccessControlLoop pse cb mb st (bs.map Except.ok) ≠ .err c e := by
  intro bs
  induction bs with
  | nil =>
    intro st c e h
    simp [setAccessControlLoop] at h
  | cons b tail ih =>
    intro st c e h
    simp only [List.map_cons, setAccessControlLoop] at h
    split at h
    · split at h
      next heq => simp at h
      next calls e' heq => exact ih (engineStep st b) calls e' heq
      next heq => simp at h
    · simp at h

theorem mkResult_engineRun_counters (bs : List BatchResponse) :
    (mkResult (engineRun initEngineState bs)).counters = sumCounters bs := by
  obtain ⟨h1, h2, h3⟩ := engineRun_totals bs initEngineState
  have e1 : (engineRun initEngineState bs).total_directories_successful
      = (sumCounters bs).directories_successful := by
    rw [h1]; exact Int.zero_add _
  have e2 : (engineRun initEngineState bs).total_files_success
      = (sumCounters bs).files_successful := by
    rw [h2]; exact Int.zero_add _
  have e3 : (engineRun initEngineState bs).total_failure_count
      = (sumCounters bs).failure_count := by
    rw [h3]; exact Int.zero_add _
  simp only [mkResult]
  rw [e1, e2, e3]

theorem mkProgress_engineRun (b : BatchResponse) (bs : List BatchResponse) :
    mkProgress b (engineRun initEngineState bs)
      = { batch_counters := countersOf b
          aggregate_counters := sumCounters bs
          batch_failures := b.failed_entries.map mkAccessControlChangeFailure
          continuation := lastNonNoneToken none bs } := by
  obtain ⟨h1, h2, h3⟩ := engineRun_totals bs initEngineState
  have e1 : (engineRun initEngineState bs).total_directories_successful
      = (sumCounters bs).directories_successful := by
    rw [h1]; exact Int.zero_add _
  have e2 : (engineRun initEngineState bs).total_files_success
      = (sumCounters bs).files_successful := by
    rw [h2]; exact Int.zero_add _
  have e3 : (engineRun initEngineState bs).total_failure_count
      = (sumCounters bs).failure_count := by
    rw [h3]; exact Int.zero_add _
  have e4 := engineRun_last bs initEngineState
  simp only [mkProgress, countersOf]
  rw [e1, e2, e3, e4]
  rfl

/-- C1: for every finite sequence of batch results returned by the batch
primitive (every batch before the last carries a truthy continuation token,
the last one does not, and no max-batch cap is given), the run terminates
normally after consuming exactly those batches, and the counters of the
returned `AccessControlChangeResult` equal the element-wise sum of the
batches' counters. -/
theorem run_terminates_and_sums_counters {ε ε' : Type} (pse : ε → ε')
    (options : AclChangeOptions) (progress_callback : Bool)
    (bs : List BatchResponse)
    (hne : bs ≠ [])
    (hmid : ∀ (i : Nat) (b : BatchResponse), bs[i]? = some b → i + 1 < bs.length →
      truthyToken b.continuation = true)
    (hlast : ∀ b, bs.getLast? = some b → truthyToken b.continuation = false) :
    _set_access_control_internal pse options progress_callback none (bs.map Except.ok)
        = .ok bs (if progress_callback then reportsOf initEngineState bs else [])
            (mkResult (engineRun initEngineState bs))
      ∧ (mkResult (engineRun initEngineState bs)).counters = sumCounters bs := by
  constructor
  · have hst := stopsExactly_of_unbounded bs 0 hne hmid hlast
    have hfwd := setAccessControlLoop_forward pse progress_callback none bs
      initEngineState [] hst
    simpa [_set_access_control_internal] using hfwd
  · exact mkResult_engineRun_counters bs

/-- C1 witness: a two-batch sequence, token `T` then null, sums to `(4, 9, 0)`. -/
theorem run_terminates_and_sums_counters_witness :
    _set_access_control_internal (fun e : Unit => e) exOptions true none
        ([batchTok, batchEnd].map Except.ok)
      = .ok [batchTok, batchEnd]
          (if true then reportsOf initEngineState [batchTok, batchEnd] else [])
          (mkResult (engineRun initEngineState [batchTok, batchEnd]))
    ∧ (mkResult (engineRun initEngineState [batchTok, batchEnd])).counters
      = sumCounters [batchTok, batchEnd] :=
  run_terminates_and_sums_counters (fun e : Unit => e) exOptions true
    [batchTok, batchEnd] (by decide)
    (by
      intro i b hb hi
      have hi0 : i = 0 := by
        simp only [List.length_cons, List.length_nil] at hi
        omega
      subst hi0
      simp only [List.getElem?_cons_zero, Option.some.injEq] at hb
      subst hb
      decide)
    (by
      intro b hb
      simp only [List.getLast?_cons_cons] at hb
      have : batchEnd = b := by simpa using hb
      subst this
      decide)

/-- C2: for every run that terminates normally, the continuation of the final
`AccessControlChangeResult` is the most recent non-null continuation token
observed across all batches when the accumulated failure count is positive,
and otherwise the raw, possibly-null token of the very last batch call. -/
theorem final_continuation_rule {ε ε' : Type} (pse : ε → ε')
    (options : AclChangeOptions) (progress_callback : Bool) (max_batch : Option Int)
    (server : List (Except ε BatchResponse))
    (consumed : List BatchResponse) (reports : List AccessControlChanges)
    (result : AccessControlChangeResult)
    (h : _set_access_control_internal pse options progress_callback max_batch server
      = .ok consumed reports result) :
    result.continuation
      = if (sumCounters consumed).failure_count > 0
        then lastNonNoneToken none consumed
        else lastRawToken none consumed := by
  obtain ⟨hres, -, -⟩ := setAccessControlLoop_ok_inv pse progress_callback max_batch
    server initEngineState consumed reports result h
  subst hres
  obtain ⟨-, -, h3⟩ := engineRun_totals consumed initEngineState
  have hfail : (engineRun initEngineState consumed).total_failure_count
      = (sumCounters consumed).failure_count := by
    rw [h3]; exact Int.zero_add _
  have hlastv := engineRun_last consumed initEngineState
  have hcur := engineRun_current consumed initEngineState
  simp only [mkResult]
  rw [hfail, hlastv, hcur]
  rfl

/-- C2 witness: batch 1 has one failure and token `TOK1`, batch 2 is clean with
a null token; the final continuation is `TOK1` because the failure count is
positive, even though the last batch's own token was null. -/
theorem final_continuation_rule_witness :
    _set_access_control_internal (fun e : Unit => e) exOptions true none
        ([batchFail, batchClean].map Except.ok)
      = .ok [batchFail, batchClean]
          (reportsOf initEngineState [batchFail, batchClean])
          (mkResult (engineRun initEngineState [batchFail, batchClean]))
    ∧ (mkResult (engineRun initEngineState [batchFail, batchClean])).continuation
      = if (sumCounters [batchFail, batchClean]).failure_count > 0
        then lastNonNoneToken none [batchFail, batchClean]
        else lastRawToken none [batchFail, batchClean] :=
  ⟨by decide,
    final_continuation_rule (fun e : Unit => e) exOptions true none
      ([batchFail, batchClean].map Except.ok) [batchFail, batchClean]
      (reportsOf initEngineState [batchFail, batchClean])
      (mkResult (engineRun initEngineState [batchFail, batchClean]))
      (by decide)⟩

/-- C3 counterexample: with `max_batch = 0` the engine does not make `0` calls
and stop; the comparison `batch_count == max_batch` can never hold once the
first batch has run, so on a two-batch oracle the engine makes `2` calls. -/
theorem max_batch_zero_counterexample :
    RunResult.callCount (_set_access_control_internal (fun e : Unit => e) exOptions
        true (some 0) ([batchTok, batchEnd].map Except.ok)) = 2
      ∧ RunResult.callCount (_set_access_control_internal (fun e : Unit => e) exOptions
        true (some 0) ([batchTok, batchEnd].map Except.ok)) ≠ 0 := by
  constructor
  · decide
  · decide

/-- C3 amended: for every positive integer `k` given as `max_batch` and every
underlying batch sequence whose first `k` batches all return truthy
continuation tokens (the operation would otherwise take more than `k`
batches), the engine makes exactly `k` calls to the batch primitive and then
stops, regardless of remaining work. -/
theorem max_batch_cap_enforced {ε ε' : Type} (pse : ε → ε')
    (options : AclChangeOptions) (progress_callback : Bool) (k : Nat)
    (p : List BatchResponse) (rest : List (Except ε BatchResponse))
    (hk : 1 ≤ k) (hlen : p.length = k)
    (htr : ∀ b, b ∈ p → truthyToken b.continuation = true) :
    _set_access_control_internal pse options progress_callback (some (k : Int))
        (p.map Except.ok ++ rest)
      = .ok p (if progress_callback then reportsOf initEngineState p else [])
          (mkResult (engineRun initEngineState p))
      ∧ RunResult.callCount (_set_access_control_internal pse options
          progress_callback (some (k : Int)) (p.map Except.ok ++ rest)) = k := by
  have hne : p ≠ [] := by
    intro hcon
    rw [hcon] at hlen
    simp at hlen
    omega
  have hst := stopsExactly_of_maxBatch p 0 k (by omega) hne htr
  have hfwd := setAccessControlLoop_forward pse progress_callback (some (k : Int)) p
    initEngineState rest hst
  constructor
  · exact hfwd
  · show RunResult.callCount (setAccessControlLoop pse progress_callback
        (some (k : Int)) initEngineState (p.map Except.ok ++ rest)) = k
    rw [hfwd]
    simp [RunResult.callCount, hlen]

/-- C3 amended witness: `max_batch = 1` on an oracle whose first batch has a
truthy token stops after exactly one call despite remaining work. -/
theorem max_batch_cap_enforced_witness :
    _set_access_control_internal (fun e : Unit => e) exOptions true (some ((1 : Nat) : Int))
        ([batchTok].map Except.ok ++ [Except.ok batchEnd])
      = .ok [batchTok] (if true then reportsOf initEngineState [batchTok] else [])
          (mkResult (engineRun initEngineState [batchTok]))
      ∧ RunResult.callCount (_set_access_control_internal (fun e : Unit => e) exOptions
          true (some ((1 : Nat) : Int)) ([batchTok].map Except.ok ++ [Except.ok batchEnd])) = 1 :=
  max_batch_cap_enforced (fun e : Unit => e) exOptions true 1 [batchTok]
    [Except.ok batchEnd] (by decide) (by decide) (by decide)

/-- C4: when a progress observer is supplied, it is invoked exactly once per
completed batch, in strict batch order; the `n`-th invocation carries
`aggregate_counters` equal to the element-wise sum of batches `1..n`,
`batch_counters` equal to batch `n` alone, `batch_failures` equal to batch
`n`'s failure list in server order, and `continuation` equal to the most
recent non-null token so far. -/
theorem progress_reports_characterised {ε ε' : Type} (pse : ε → ε')
    (options : AclChangeOptions) (max_batch : Option Int)
    (server : List (Except ε BatchResponse))
    (consumed : List BatchResponse) (reports : List AccessControlChanges)
    (result : AccessControlChangeResult)
    (h : _set_access_control_internal pse options true max_batch server
      = .ok consumed reports result) :
    reports.length = consumed.length
      ∧ ∀ (n : Nat) (b : BatchResponse), consumed[n]? = some b →
          reports[n]? = some
            { batch_counters := countersOf b
              aggregate_counters := sumCounters (consumed.take (n + 1))
              batch_failures := b.failed_entries.map mkAccessControlChangeFailure
              continuation := lastNonNoneToken none (consumed.take (n + 1)) } := by
  obtain ⟨-, hrep, -⟩ := setAccessControlLoop_ok_inv pse true max_batch
    server initEngineState consumed reports result h
  rw [if_pos rfl] at hrep
  subst hrep
  constructor
  · exact reportsOf_length consumed initEngineState
  · intro n b hb
    rw [reportsOf_get consumed initEngineState n b hb, mkProgress_engineRun]

/-- C4 witness: on the two-batch oracle with a failure in batch 1, the second
report aggregates both batches while reporting batch 2's own counters alone. -/
theorem progress_reports_characterised_witness :
    _set_access_control_internal (fun e : Unit => e) exOptions true none
        ([batchFail, batchClean].map Except.ok)
        = .ok [batchFail, batchClean]
            (reportsOf initEngineState [batchFail, batchClean])
            (mkResult (engineRun initEngineState [batchFail, batchClean]))
      ∧ (reportsOf initEngineState [batchFail, batchClean]).length
        = [batchFail, batchClean].length
      ∧ (reportsOf initEngineState [batchFail, batchClean])[1]?
        = some
            { batch_counters := countersOf batchClean
              aggregate_counters := sumCounters ([batchFail, batchClean].take 2)
              batch_failures := batchClean.failed_entries.map mkAccessControlChangeFailure
              continuation := lastNonNoneToken none ([batchFail, batchClean].take 2) } := by
  have h := progress_reports_characterised (fun e : Unit => e) exOptions none
    ([batchFail, batchClean].map Except.ok) [batchFail, batchClean]
    (reportsOf initEngineState [batchFail, batchClean])
    (mkResult (engineRun initEngineState [batchFail, batchClean]))
    (by decide)
  exact ⟨by decide, h.1, h.2 1 batchClean (by decide)⟩

/-- C5 counterexample: the claim says a batch whose token is null **or empty**
leaves `last_continuation_token` unchanged; but on a batch whose token is the
empty string (non-null yet falsy) the code overwrites the last known-resumable
token, here replacing `TOK1` by `""`. -/
theorem last_token_update_counterexample :
    ¬ ((engineStep stWithTok batchEmptyTok).last_continuation_token
        = if truthyToken batchEmptyTok.continuation then batchEmptyTok.continuation
          else stWithTok.last_continuation_token) := by
  decide

/-- C5 amended: `last_continuation_token` is set to the batch's token exactly
when that token is non-null — including when it is the empty string — and is
left at the previous value only when the token is null. -/
theorem last_token_update_rule (st : EngineState) (b : BatchResponse) :
    (engineStep st b).last_continuation_token
      = if b.continuation.isSome then b.continuation
        else st.last_continuation_token := by
  cases hb : b.continuation <;> simp [engineStep, hb]

/-- C6: every one of the three entry operations called with empty ACL text
fails with the validation error, uniformly in the progress callback, the
max-batch cap, the continuation token and the entire server oracle — so no
batch-primitive call and no network interaction can be involved. -/
theorem empty_acl_validation {ε ε' : Type} (pse : ε → ε') (progress_callback : Bool)
    (max_batch : Option Int) (continuation : Option String)
    (server : List (Except ε BatchResponse)) :
    set_access_control_recursive pse "" progress_callback max_batch continuation server
        = .error "The Access Control List must be set for this operation"
      ∧ update_access_control_recursive pse "" progress_callback max_batch continuation server
        = .error "The Access Control List must be set for this operation"
      ∧ remove_access_control_recursive pse "" progress_callback max_batch continuation server
        = .error "The Access Control List must be set for this operation" :=
  ⟨rfl, rfl, rfl⟩

/-- C7: when the batch primitive fails after `p` successful continuing batches,
the engine propagates the (collaborator-translated) error having made exactly
`p.length + 1` calls, aborts the loop with no further batches, and produces no
`AccessControlChangeResult`; and a run whose primitive calls all succeed never
ends in an error, whatever per-entry failure counts the batches report. -/
theorem remote_error_propagation {ε ε' : Type} (pse : ε → ε')
    (options : AclChangeOptions) (progress_callback : Bool) (max_batch : Option Int)
    (p : List BatchResponse) (e : ε) (rest : List (Except ε BatchResponse))
    (hp : allContinue max_batch 0 p = true) :
    _set_access_control_internal pse options progress_callback max_batch
        (p.map Except.ok ++ (.error e :: rest))
      = .err (p.length + 1) (pse e)
    ∧ ∀ (bs : List BatchResponse) (c : Nat) (e' : ε'),
        _set_access_control_internal pse options progress_callback max_batch
          (bs.map Except.ok) ≠ .err c e' := by
  constructor
  · exact setAccessControlLoop_error pse progress_callback max_batch p
      initEngineState e rest hp
  · intro bs c e'
    exact setAccessControlLoop_no_err pse progress_callback max_batch bs
      initEngineState c e'

/-- C7 witness: one successful continuing batch followed by a transport error
makes exactly two calls and propagates the error. -/
theorem remote_error_propagation_witness :
    _set_access_control_internal (fun e : Unit => e) exOptions true none
        ([batchTok].map Except.ok ++ (.error () :: []))
      = .err ([batchTok].length + 1) () :=
  (remote_error_propagation (fun e : Unit => e) exOptions true none
    [batchTok] () [] (by decide)).1

/-- C8: every failure entry of a batch is passed to the progress observer with
`is_directory` true exactly when the server-reported type string is the exact,
case-sensitive string `DIRECTORY` (so e.g. `directory` gives `false`), while
name and error message are copied through unchanged. -/
theorem failure_mapping_directory_type {ε ε' : Type} (pse : ε → ε')
    (options : AclChangeOptions) (max_batch : Option Int)
    (server : List (Except ε BatchResponse))
    (consumed : List BatchResponse) (reports : List AccessControlChanges)
    (result : AccessControlChangeResult)
    (h : _set_access_control_internal pse options true max_batch server
      = .ok consumed reports result) :
    (∀ (n : Nat) (b : BatchResponse), consumed[n]? = some b →
        ∃ pr : AccessControlChanges, reports[n]? = some pr
          ∧ pr.batch_failures = b.failed_entries.map mkAccessControlChangeFailure)
      ∧ ∀ f : AclFailedEntry,
          ((mkAccessControlChangeFailure f).is_directory = true ↔ f.type = "DIRECTORY")
            ∧ (mkAccessControlChangeFailure f).name = f.name
            ∧ (mkAccessControlChangeFailure f).error_message = f.error_message := by
  obtain ⟨-, hrep, -⟩ := setAccessControlLoop_ok_inv pse true max_batch
    server initEngineState consumed reports result h
  rw [if_pos rfl] at hrep
  subst hrep
  constructor
  · intro n b hb
    refine ⟨mkProgress b (engineRun initEngineState ((consumed.take (n + 1)))),
      reportsOf_get consumed initEngineState n b hb, ?_⟩
    rw [mkProgress_engineRun]
  · intro f
    refine ⟨?_, rfl, rfl⟩
    simp [mkAccessControlChangeFailure]

/-- C8 witness: a run whose single batch reports one failure typed `DIRECTORY`
and one typed `directory`; the mapping marks only the former a directory. -/
theorem failure_mapping_directory_type_witness :
    ((mkAccessControlChangeFailure { name := "d1", type := "DIRECTORY", error_message := "m1" }).is_directory
        = true ↔ ("DIRECTORY" : String) = "DIRECTORY")
      ∧ ((mkAccessControlChangeFailure { name := "f1", type := "directory", error_message := "m2" }).is_directory
        = true ↔ ("directory" : String) = "DIRECTORY") := by
  have h := failure_mapping_directory_type (fun e : Unit => e) exOptions none
    ([batchDirFail].map Except.ok) [batchDirFail]
    (reportsOf initEngineState [batchDirFail])
    (mkResult (engineRun initEngineState [batchDirFail]))
    (by decide)
  exact ⟨(h.2 { name := "d1", type := "DIRECTORY", error_message := "m1" }).1,
    (h.2 { name := "f1", type := "directory", error_message := "m2" }).1⟩

/-- C9: the three entry operations perform exactly the same computation — the
same validation, the same engine loop and the same result construction — each
being an instance of one generic mode-parametrised operation at its mode
literal, and their outcomes apart from the forwarded options are identical. -/
theorem entry_operations_differ_only_in_mode {ε ε' : Type} (pse : ε → ε')
    (acl : String) (progress_callback : Bool) (max_batch : Option Int)
    (continuation : Option String) (server : List (Except ε BatchResponse)) :
    set_access_control_recursive pse acl progress_callback max_batch continuation server
        = access_control_recursive_generic pse "set" acl progress_callback max_batch
            continuation server
      ∧ update_access_control_recursive pse acl progress_callback max_batch continuation server
        = access_control_recursive_generic pse "modify" acl progress_callback max_batch
            continuation server
      ∧ remove_access_control_recursive pse acl progress_callback max_batch continuation server
        = access_control_recursive_generic pse "remove" acl progress_callback max_batch
            continuation server
      ∧ Except.map Prod.snd
          (set_access_control_recursive pse acl progress_callback max_batch continuation server)
        = Except.map Prod.snd
          (update_access_control_recursive pse acl progress_callback max_batch continuation server)
      ∧ Except.map Prod.snd
          (update_access_control_recursive pse acl progress_callback max_batch continuation server)
        = Except.map Prod.snd
          (remove_access_control_recursive pse acl progress_callback max_batch continuation server) := by
  refine ⟨rfl, rfl, rfl, ?_, ?_⟩ <;>
  · by_cases hacl : (acl == "") = true
    · simp [set_access_control_recursive, update_access_control_recursive,
        remove_access_control_recursive, hacl]
    · simp only [Bool.not_eq_true] at hacl
      simp only [set_access_control_recursive, update_access_control_recursive,
        remove_access_control_recursive, hacl, Bool.false_eq_true, if_false]
      rfl

/-- C10: assuming every consumed batch carries non-negative counters, the
aggregate counters reported to the progress observer are monotonically
non-decreasing in every component across successive invocations, and the
final result's counters dominate every reported aggregate component-wise. -/
theorem aggregate_counters_monotone {ε ε' : Type} (pse : ε → ε')
    (options : AclChangeOptions) (max_batch : Option Int)
    (server : List (Except ε BatchResponse))
    (consumed : List BatchResponse) (reports : List AccessControlChanges)
    (result : AccessControlChangeResult)
    (h : _set_access_control_internal pse options true max_batch server
      = .ok consumed reports result)
    (hnn : ∀ b, b ∈ consumed → 0 ≤ b.directories_successful
      ∧ 0 ≤ b.files_successful ∧ 0 ≤ b.failure_count) :
    (∀ (i j : Nat) (p q : AccessControlChanges), i ≤ j →
        reports[i]? = some p → reports[j]? = some q →
        countersLe p.aggregate_counters q.aggregate_counters)
      ∧ ∀ (i : Nat) (p : AccessControlChanges), reports[i]? = some p →
          countersLe p.aggregate_counters result.counters := by
  obtain ⟨hres, hrep, -⟩ := setAccessControlLoop_ok_inv pse true max_batch
    server initEngineState consumed reports result h
  rw [if_pos rfl] at hrep
  subst hrep
  subst hres
  have key : ∀ (i : Nat) (p : AccessControlChanges),
      (reportsOf initEngineState consumed)[i]? = some p →
      p.aggregate_counters = sumCounters (consumed.take (i + 1)) := by
    intro i p hp
    have hi : i < (reportsOf initEngineState consumed).length := by
      by_contra hge
      push_neg at hge
      rw [List.getElem?_eq_none hge] at hp
      exact Option.noConfusion hp
    rw [reportsOf_length] at hi
    have hb : consumed[i]? = some consumed[i] := List.getElem?_eq_getElem hi
    rw [reportsOf_get consumed initEngineState i consumed[i] hb] at hp
    have hp' : p = mkProgress consumed[i] (engineRun initEngineState (consumed.take (i + 1))) :=
      (Option.some.inj hp).symm
    rw [hp', mkProgress_engineRun]
  constructor
  · intro i j p q hij hp hq
    rw [key i p hp, key j q hq]
    exact sumCounters_take_le consumed hnn (i + 1) (j + 1) (by omega)
  · intro i p hp
    rw [key i p hp, mkResult_engineRun_counters]
    have := sumCounters_take_le consumed hnn (i + 1) consumed.length ?_
    · rw [List.take_length] at this
      exact this
    · have hi : i < (reportsOf initEngineState consumed).length := by
        by_contra hge
        push_neg at hge
        rw [List.getElem?_eq_none hge] at hp
        exact Option.noConfusion hp
      rw [reportsOf_length] at hi
      omega

/-- C10 witness: on the two-batch run with a failure in batch 1, the first
report's aggregate is dominated by the final counters. -/
theorem aggregate_counters_monotone_witness :
    countersLe (mkProgress batchFail (engineStep initEngineState batchFail)).aggregate_counters
      (mkResult (engineRun initEngineState [batchFail, batchClean])).counters :=
  (aggregate_counters_monotone (fun e : Unit => e) exOptions none
    ([batchFail, batchClean].map Except.ok) [batchFail, batchClean]
    (reportsOf initEngineState [batchFail, batchClean])
    (mkResult (engineRun initEngineState [batchFail, batchClean]))
    (by decide) (by decide)).2 0
    (mkProgress batchFail (engineStep initEngineState batchFail)) (by decide)
